import Mathlib

/-!
Verification development for the `bot_otp` repository (`src/otp_bot.py`), a
Telegram bot that stores named Base32 TOTP secrets in a sqlite table
`otp_secrets (name PRIMARY KEY, secret_key NOT NULL)` and serves RFC 6238
codes through the commands `getotp`, `addcode`, `deletecode`, `listcodes`.

The shallow embedding below models:
* `is_valid_base32` — the Python check `bool(re.match(r'^[A-Z2-7]+=*$', s))`,
  including the Python `$` semantics that also accept one trailing newline;
* the secret store as an association list in insertion order (the sqlite
  table with its primary-key uniqueness), and the four command handlers;
* the TOTP pipeline the bot delegates to the `pyotp` library
  (`pyotp.TOTP(secret).now()`): Base32 decoding of the stored secret,
  HMAC-SHA1 over the 8-byte counter, dynamic truncation, 6-digit rendering.
  That library code is not part of the repository, so it is modelled from
  the specification's algorithm description (RFC 6238 defaults), faithful
  to its words; exceptions are modelled with `Except`.

Machine integers are `Nat` with explicit reductions modulo `2 ^ 32` where
the algorithms overflow.
-/

namespace OtpBot

/-! ### Base32 validation (`BASE32_REGEX`, `is_valid_base32`) -/

/-- One character of the regex class `[A-Z2-7]`. -/
def isB32Char (c : Char) : Bool :=
  ('A' ≤ c && c ≤ 'Z') || ('2' ≤ c && c ≤ '7')

/-- Matching of the pattern `[A-Z2-7]+=*` against a whole character list:
a maximal nonempty prefix of `[A-Z2-7]` characters followed only by `=`. -/
def coreMatch (l : List Char) : Bool :=
  !(l.takeWhile isB32Char).isEmpty && (l.dropWhile isB32Char).all (· == '=')

/-- The source's `is_valid_base32(secret_key) = bool(BASE32_REGEX.match(secret_key))`
with `BASE32_REGEX = re.compile(r'^[A-Z2-7]+=*$')`.  Python's `$` also matches
just before one newline that ends the string, so such a string is accepted too. -/
def is_valid_base32 (secret_key : String) : Bool :=
  coreMatch secret_key.data ||
    (secret_key.data.getLastD ' ' == '\n' && coreMatch secret_key.data.dropLast)

/-! ### Bytes -/

/-- Big-endian byte encoding of `n` on exactly `k` bytes (the low `8 * k` bits). -/
def toBE : Nat → Nat → List Nat
  | 0, _ => []
  | k + 1, n => toBE k (n / 256) ++ [n % 256]

/-- Big-endian value of a byte list. -/
def bytesToNat (l : List Nat) : Nat :=
  l.foldl (fun a b => a * 256 + b) 0

/-! ### Base32 decoding, as the bot's `pyotp` dependency performs it -/

/-- Value of one Base32 alphabet character, `none` outside the alphabet. -/
def b32val (c : Char) : Option Nat :=
  if 'A' ≤ c && c ≤ 'Z' then some (c.toNat - 'A'.toNat)
  else if '2' ≤ c && c ≤ '7' then some (c.toNat - '2'.toNat + 26)
  else none

/-- Modelled from the spec: the Base32 Codec's `decode` (`DecodeError` on invalid
input or inconsistent padding), as Python's `base64.b32decode(s, casefold=True)`
behaves — the routine the `pyotp` dependency calls; that library code is not in
the repository.  The length must be a multiple of 8, the trailing `=` run must
have one of the lengths 0, 1, 3, 4, 6, the rest must be alphabet characters;
each character contributes 5 bits and complete bytes are kept. -/
def b32decode (s : String) : Except Unit (List Nat) :=
  if s.length % 8 ≠ 0 then .error ()
  else
    let up := s.data.map Char.toUpper
    let stripped := (up.reverse.dropWhile (· == '=')).reverse
    let padchars := up.length - stripped.length
    if ¬ (padchars = 0 ∨ padchars = 1 ∨ padchars = 3 ∨ padchars = 4 ∨ padchars = 6) then
      .error ()
    else if stripped.any (fun c => (b32val c).isNone) then .error ()
    else
      let acc := stripped.foldl (fun a c => a * 32 + (b32val c).getD 0) 0
      let nbits := 5 * stripped.length
      let nbytes := nbits / 8
      .ok (toBE nbytes (acc >>> (nbits - 8 * nbytes)))

/-- Modelled from the spec: `pyotp`'s `byte_secret` — the stored secret is padded
with `=` up to a multiple of 8 characters and then Base32-decoded; a failure is
the decode exception that `getotp` does not catch. -/
def byte_secret (secret : String) : Except Unit (List Nat) :=
  let missing := secret.length % 8
  if missing ≠ 0 then
    b32decode (secret ++ String.mk (List.replicate (8 - missing) '='))
  else b32decode secret

/-! ### SHA-1 and HMAC-SHA1 (RFC 3174 / RFC 2104), the primitives behind
`hmac.new(key, msg, hashlib.sha1)` used by the `pyotp` dependency. -/

/-- Rotate a 32-bit word left by `k` bits. -/
def rotl (k n : Nat) : Nat := ((n <<< k) ||| (n >>> (32 - k))) % 2 ^ 32

/-- The SHA-1 round function: Ch, Parity, Maj, Parity over the four stages. -/
def shaF (t b c d : Nat) : Nat :=
  if t < 20 then (b &&& c) ||| ((b ^^^ 0xFFFFFFFF) &&& d)
  else if t < 40 then b ^^^ c ^^^ d
  else if t < 60 then (b &&& c) ||| (b &&& d) ||| (c &&& d)
  else b ^^^ c ^^^ d

/-- The SHA-1 round constants. -/
def shaK (t : Nat) : Nat :=
  if t < 20 then 0x5A827999
  else if t < 40 then 0x6ED9EBA1
  else if t < 60 then 0x8F1BBCDC
  else 0xCA62C1D6

/-- Split a list into consecutive chunks of `k` elements. -/
def chunkList : Nat → List α → List (List α)
  | _, [] => []
  | 0, _ :: _ => []
  | k + 1, a :: l => (a :: l).take (k + 1) :: chunkList (k + 1) (l.drop k)
termination_by _ l => l.length
decreasing_by
  simp only [List.length_drop, List.length_cons]
  omega

/-- The five 32-bit words of SHA-1's running hash value. -/
structure SHAState where
  h0 : Nat
  h1 : Nat
  h2 : Nat
  h3 : Nat
  h4 : Nat

/-- SHA-1 initial hash value. -/
def sha1Init : SHAState :=
  ⟨0x67452301, 0xEFCDAB89, 0x98BADCFE, 0x10325476, 0xC3D2E1F0⟩

/-- Extend the 16 words of a block to the 80-entry message schedule. -/
def extendW (w : List Nat) : List Nat :=
  (List.range 64).foldl
    (fun w _ =>
      w ++ [rotl 1 ((w.getD (w.length - 3) 0) ^^^ (w.getD (w.length - 8) 0) ^^^
                    (w.getD (w.length - 14) 0) ^^^ (w.getD (w.length - 16) 0))])
    w

/-- One SHA-1 round on the working variables `(a, b, c, d, e)`. -/
def shaStep (w : List Nat) (st : Nat × Nat × Nat × Nat × Nat) (t : Nat) :
    Nat × Nat × Nat × Nat × Nat :=
  ((rotl 5 st.1 + shaF t st.2.1 st.2.2.1 st.2.2.2.1 + st.2.2.2.2 + shaK t + w.getD t 0) % 2 ^ 32,
   st.1, rotl 30 st.2.1, st.2.2.1, st.2.2.2.1)

/-- Compress one 64-byte block into the hash state. -/
def processBlock (s : SHAState) (block : List Nat) : SHAState :=
  let w := extendW ((chunkList 4 block).map bytesToNat)
  let r := (List.range 80).foldl (shaStep w) (s.h0, s.h1, s.h2, s.h3, s.h4)
  ⟨(s.h0 + r.1) % 2 ^ 32, (s.h1 + r.2.1) % 2 ^ 32, (s.h2 + r.2.2.1) % 2 ^ 32,
   (s.h3 + r.2.2.2.1) % 2 ^ 32, (s.h4 + r.2.2.2.2) % 2 ^ 32⟩

/-- Serialize the hash state as the 20-byte big-endian digest. -/
def digestBytes (s : SHAState) : List Nat :=
  toBE 4 s.h0 ++ toBE 4 s.h1 ++ toBE 4 s.h2 ++ toBE 4 s.h3 ++ toBE 4 s.h4

/-- SHA-1 of a byte string: pad with `0x80`, zeros and the 64-bit bit length,
then compress the 64-byte blocks. -/
def sha1 (msg : List Nat) : List Nat :=
  let padded :=
    msg ++ 0x80 :: (List.replicate ((64 - (msg.length + 9) % 64) % 64) 0 ++
      toBE 8 (8 * msg.length))
  digestBytes ((chunkList 64 padded).foldl processBlock sha1Init)

/-- HMAC-SHA1 (RFC 2104): the key is hashed if longer than the 64-byte block,
zero-padded to 64 bytes, and combined with the `0x36`/`0x5C` pads. -/
def hmacSha1 (key msg : List Nat) : List Nat :=
  let k0 := if 64 < key.length then sha1 key else key
  let kpad := k0 ++ List.replicate (64 - k0.length) 0
  sha1 ((kpad.map (fun x => x ^^^ 0x5C)) ++ sha1 ((kpad.map (fun x => x ^^^ 0x36)) ++ msg))

/-! ### The TOTP engine (`pyotp.TOTP(secret).now()`) -/

/-- Decimal digit characters of `n`, most significant first (`"0"` for zero),
as Python's `str(code)` renders a nonnegative integer. -/
def decDigits (n : Nat) : List Char :=
  if h : n < 10 then [Nat.digitChar n]
  else decDigits (n / 10) ++ [Nat.digitChar (n % 10)]
termination_by n
decreasing_by exact Nat.div_lt_self (by omega) (by omega)

/-- Python's `str.zfill`: pad on the left with `'0'` up to length `k`. -/
def zfill (k : Nat) (l : List Char) : String :=
  (List.replicate (k - l.length) '0' ++ l).asString

/-- Modelled from the spec: `pyotp`'s `int_to_bytestring` loop — the base-256
digits of the counter, most significant first (empty for zero). -/
def int_to_bytestring_core (i : Nat) : List Nat :=
  if h : i = 0 then [] else int_to_bytestring_core (i / 256) ++ [i % 256]
termination_by i
decreasing_by exact Nat.div_lt_self (Nat.pos_of_ne_zero h) (by omega)

/-- Modelled from the spec: `pyotp`'s `int_to_bytestring` — the counter's
big-endian bytes left-padded with zero bytes to 8 bytes. -/
def int_to_bytestring (i : Nat) : List Nat :=
  List.replicate (8 - (int_to_bytestring_core i).length) 0 ++ int_to_bytestring_core i

/-- Modelled from the spec: `pyotp`'s `generate_otp` with the RFC 6238 defaults
(6 digits, HMAC-SHA1) — dynamic truncation of the digest at the offset given by
the low 4 bits of its last byte, and zero-padded 6-digit decimal rendering. -/
def generate_otp (secretBytes : List Nat) (input : Nat) : String :=
  let hmac_hash := hmacSha1 secretBytes (int_to_bytestring input)
  let offset := hmac_hash.getLastD 0 &&& 0xF
  let code :=
    ((hmac_hash.getD offset 0 &&& 0x7F) <<< 24) |||
    ((hmac_hash.getD (offset + 1) 0) <<< 16) |||
    ((hmac_hash.getD (offset + 2) 0) <<< 8) |||
    (hmac_hash.getD (offset + 3) 0)
  zfill 6 (decDigits (code % 10 ^ 6))

/-- Modelled from the spec: `pyotp.TOTP(...).now()` with the default 30-second
interval — the OTP for counter `floor(t / 30)` at unix time `t`.  It is a pure
function of the secret bytes and the time; the only hidden input of the real
call, the clock, is the explicit parameter `t` here. -/
def totp_now (secretBytes : List Nat) (t : Nat) : String :=
  generate_otp secretBytes (t / 30)

/-! ### The secret store and the command handlers -/

/-- Python's `str.upper` (ASCII range), applied characterwise. -/
def pyUpper (s : String) : String := String.mk (s.data.map Char.toUpper)

/-- Python's `str.lower` (ASCII range), applied characterwise. -/
def pyLower (s : String) : String := String.mk (s.data.map Char.toLower)

/-- The `otp_secrets` table: `(name, secret_key)` rows in insertion order.
The sqlite `PRIMARY KEY` makes the names of a real table pairwise distinct. -/
abbrev Store := List (String × String)

/-- The `SELECT secret_key FROM otp_secrets WHERE name = ?` / `fetchone` lookup. -/
def storeLookup (st : Store) (name : String) : Option String :=
  (st.find? (fun r => r.1 == name)).map (fun r => r.2)

/-- Whether some row has the given name. -/
def storeHasName (st : Store) (name : String) : Bool :=
  st.any (fun r => r.1 == name)

/-- The `/getotp` handler.  `args` is `context.args`; the reply text is returned
as `.ok`, and an exception escaping the handler (the decode failure inside
`pyotp.TOTP(...).now()`, which the source does not catch) is `.error ()`. -/
def getotp (st : Store) (args : List String) (t : Nat) : Except Unit String :=
  match args with
  | [] => .ok "Usage: /getotp <name>"
  | arg :: _ =>
    let name := pyLower arg
    match storeLookup st name with
    | none => .ok ("Service '" ++ name ++ "' not found. Use /listcodes to see available services.")
    | some key =>
      match byte_secret key with
      | .error _ => .error ()
      | .ok b => .ok ("Your real-time OTP code for " ++ name ++ " is: " ++ totp_now b t)

/-- The `/addcode` handler: lowercase the name, uppercase the key, validate it
with `is_valid_base32`, and insert unless the primary key already exists
(`sqlite3.IntegrityError`).  Returns the new table and the reply text. -/
def addcode (st : Store) (args : List String) : Store × String :=
  match args with
  | name0 :: key0 :: _ =>
    let name := pyLower name0
    let secret_key := pyUpper key0
    if !is_valid_base32 secret_key then
      (st, "Invalid secret_key. It must be a valid Base32 string (A-Z, 2-7, and = only).")
    else if storeHasName st name then
      (st, "Service '" ++ name ++ "' already exists. Use /deletecode to remove it first.")
    else
      (st ++ [(name, secret_key)], "OTP code for '" ++ name ++ "' added successfully.")
  | _ => (st, "Usage: /addcode <name> <secret_key>")

/-- The `/deletecode` handler: `DELETE FROM otp_secrets WHERE name = ?` removes
every matching row; `cursor.rowcount == 0` selects the not-found reply. -/
def deletecode (st : Store) (args : List String) : Store × String :=
  match args with
  | [] => (st, "Usage: /deletecode <name>")
  | arg :: _ =>
    let name := pyLower arg
    let st2 := st.filter (fun r => r.1 != name)
    if st2.length = st.length then
      (st2, "Service '" ++ name ++ "' not found. Use /listcodes to see available services.")
    else
      (st2, "OTP code for '" ++ name ++ "' deleted successfully.")

/-- The `/listcodes` handler. -/
def listcodes (st : Store) : String :=
  if st.isEmpty then "No OTP codes stored. Use /addcode to add one."
  else "Stored OTP codes:\n" ++ String.intercalate "\n" (st.map (fun r => "- " ++ r.1))

/-- Store states reachable through the command operations from the empty table.
`getotp` and `listcodes` only read the table, so only `addcode` and
`deletecode` appear as steps. -/
inductive Reachable : Store → Prop where
  | init : Reachable []
  | add (st : Store) (args : List String) : Reachable st → Reachable (addcode st args).1
  | del (st : Store) (args : List String) : Reachable st → Reachable (deletecode st args).1

/-! ### Specification-side reference definitions -/

/-- The RFC 6238 reference computation exactly as the specification words it:
`counter = floor(t / 30)` as an 8-byte big-endian integer, a 20-byte
HMAC-SHA1 digest, `offset = digest[19] & 0x0F`, the 4 bytes
`digest[offset..offset+4]` masked with `0x7FFFFFFF`, and that 31-bit integer
modulo `10^6` rendered as exactly 6 digits with leading zeros. -/
def rfc6238Reference (secretBytes : List Nat) (t : Nat) : String :=
  let counter := t / 30
  let digest := hmacSha1 secretBytes (toBE 8 counter)
  let offset := digest.getD 19 0 &&& 0xF
  let trunc := bytesToNat ((digest.drop offset).take 4) &&& 0x7FFFFFFF
  zfill 6 (decDigits (trunc % 10 ^ 6))

/-- The Base32 well-formedness predicate exactly as claim C2 words it: every
character is in `[A-Z2-7]` apart from the `=` characters, which form a
contiguous trailing run, possibly empty. -/
def claimBase32 (s : String) : Prop :=
  ∃ body pad : List Char, s.data = body ++ pad ∧
    (∀ c ∈ body, isB32Char c = true) ∧ (∀ c ∈ pad, c = '=')

/-- The language actually accepted by `is_valid_base32`: at least one character
of `[A-Z2-7]`, then a possibly empty run of `=`, then at most one final
newline (the Python `$` artifact). -/
def regexBase32 (s : String) : Prop :=
  ∃ body pad nl : List Char, s.data = body ++ pad ++ nl ∧ body ≠ [] ∧
    (∀ c ∈ body, isB32Char c = true) ∧ (∀ c ∈ pad, c = '=') ∧
    (nl = [] ∨ nl = ['\n'])

/-! ### Byte-level utility lemmas -/

theorem toBE_length (k n : Nat) : (toBE k n).length = k := by
  induction k generalizing n with
  | zero => rfl
  | succ k ih => simp [toBE, ih]

theorem toBE_mem_lt (k n : Nat) : ∀ x ∈ toBE k n, x < 256 := by
  induction k generalizing n with
  | zero => simp [toBE]
  | succ k ih =>
    intro x hx
    simp only [toBE, List.mem_append, List.mem_singleton] at hx
    rcases hx with hx | hx
    · exact ih _ _ hx
    · omega

theorem digestBytes_length (s : SHAState) : (digestBytes s).length = 20 := by
  simp [digestBytes, toBE_length]

theorem digestBytes_mem_lt (s : SHAState) : ∀ x ∈ digestBytes s, x < 256 := by
  intro x hx
  simp only [digestBytes, List.mem_append] at hx
  rcases hx with (((h | h) | h) | h) | h <;> exact toBE_mem_lt _ _ _ h

theorem sha1_length (m : List Nat) : (sha1 m).length = 20 :=
  digestBytes_length _

theorem sha1_mem_lt (m : List Nat) : ∀ x ∈ sha1 m, x < 256 :=
  digestBytes_mem_lt _

theorem hmacSha1_length (key msg : List Nat) : (hmacSha1 key msg).length = 20 :=
  sha1_length _

theorem hmacSha1_mem_lt (key msg : List Nat) : ∀ x ∈ hmacSha1 key msg, x < 256 :=
  sha1_mem_lt _

theorem getD_drop (l : List Nat) (o i d : Nat) :
    (l.drop o).getD i d = l.getD (o + i) d := by
  simp [List.getD_eq_getElem?_getD, List.getElem?_drop]

theorem take_four_of_le (l : List Nat) (d : Nat) (h : 4 ≤ l.length) :
    l.take 4 = [l.getD 0 d, l.getD 1 d, l.getD 2 d, l.getD 3 d] := by
  match l with
  | a :: b :: c :: e :: rest => simp [List.getD]
  | [] | [_] | [_, _] | [_, _, _] => simp at h

theorem drop_take_four (l : List Nat) (o : Nat) (h : o + 4 ≤ l.length) :
    (l.drop o).take 4 =
      [l.getD o 0, l.getD (o + 1) 0, l.getD (o + 2) 0, l.getD (o + 3) 0] := by
  have h4 : 4 ≤ (l.drop o).length := by
    simp only [List.length_drop]
    omega
  rw [take_four_of_le _ 0 h4]
  simp [getD_drop]

theorem getD_lt_of_mem_lt (l : List Nat) (i : Nat) (hi : i < l.length)
    (h : ∀ x ∈ l, x < 256) : l.getD i 0 < 256 := by
  rw [List.getD_eq_getElem l 0 hi]
  exact h _ (List.getElem_mem hi)

theorem getLastD_eq_getD_19 (l : List Nat) (h : l.length = 20) :
    l.getLastD 0 = l.getD 19 0 := by
  rw [List.getLastD_eq_getLast?, List.getLast?_eq_getElem?, List.getD_eq_getElem?_getD, h]

/-! ### Bitwise arithmetic lemmas -/

theorem testBit_mul_two_pow_add_low (a b i n : Nat) (hb : b < 2 ^ n) (hi : i < n) :
    (a * 2 ^ n + b).testBit i = b.testBit i := by
  have h1 : (a * 2 ^ n + b) % 2 ^ n = b := by
    rw [Nat.mul_comm a (2 ^ n), Nat.mul_add_mod, Nat.mod_eq_of_lt hb]
  conv_rhs => rw [← h1]
  rw [Nat.testBit_mod_two_pow]
  simp [hi]

theorem testBit_mul_two_pow_add_high (a b i n : Nat) (hb : b < 2 ^ n) (hn : n ≤ i) :
    (a * 2 ^ n + b).testBit i = a.testBit (i - n) := by
  have h2 : (a * 2 ^ n + b) / 2 ^ i = a / 2 ^ (i - n) := by
    have hsplit : 2 ^ i = 2 ^ n * 2 ^ (i - n) := by
      rw [← pow_add]
      congr 1
      omega
    rw [hsplit, ← Nat.div_div_eq_div_mul]
    congr 1
    rw [Nat.mul_comm a (2 ^ n), Nat.mul_add_div (Nat.two_pow_pos n), Nat.div_eq_of_lt hb,
      Nat.add_zero]
  rw [Nat.testBit_to_div_mod, Nat.testBit_to_div_mod, h2]

theorem shiftLeft_lor_eq_add (a b n : Nat) (hb : b < 2 ^ n) :
    (a <<< n) ||| b = a * 2 ^ n + b := by
  apply Nat.eq_of_testBit_eq
  intro i
  rw [Nat.testBit_or, Nat.testBit_shiftLeft]
  by_cases hi : n ≤ i
  · have hbf : b.testBit i = false :=
      Nat.testBit_lt_two_pow (lt_of_lt_of_le hb (Nat.pow_le_pow_right (by omega) hi))
    rw [testBit_mul_two_pow_add_high a b i n hb hi]
    simp [hi, hbf]
  · rw [testBit_mul_two_pow_add_low a b i n hb (by omega)]
    simp [hi]

theorem lor_mul_add (u v n : Nat) (hv : v < 2 ^ n) : (u * 2 ^ n) ||| v = u * 2 ^ n + v := by
  have h := shiftLeft_lor_eq_add u v n hv
  rwa [Nat.shiftLeft_eq] at h

theorem code_or_eq (x y z w : Nat) (hy : y < 256) (hz : z < 256) (hw : w < 256) :
    (x <<< 24) ||| (y <<< 16) ||| (z <<< 8) ||| w =
      ((x * 256 + y) * 256 + z) * 256 + w := by
  simp only [Nat.shiftLeft_eq]
  have s1 : x * 2 ^ 24 ||| y * 2 ^ 16 = x * 2 ^ 24 + y * 2 ^ 16 :=
    lor_mul_add x (y * 2 ^ 16) 24 (by norm_num; omega)
  have e2 : x * 2 ^ 24 + y * 2 ^ 16 = (x * 2 ^ 8 + y) * 2 ^ 16 := by ring
  have s2 : x * 2 ^ 24 + y * 2 ^ 16 ||| z * 2 ^ 8 =
      (x * 2 ^ 8 + y) * 2 ^ 16 + z * 2 ^ 8 := by
    rw [e2]
    exact lor_mul_add _ (z * 2 ^ 8) 16 (by norm_num; omega)
  have e3 : (x * 2 ^ 8 + y) * 2 ^ 16 + z * 2 ^ 8 = ((x * 2 ^ 8 + y) * 2 ^ 8 + z) * 2 ^ 8 := by
    ring
  have s3 : (x * 2 ^ 8 + y) * 2 ^ 16 + z * 2 ^ 8 ||| w =
      ((x * 2 ^ 8 + y) * 2 ^ 8 + z) * 2 ^ 8 + w := by
    rw [e3]
    exact lor_mul_add _ w 8 (by norm_num; omega)
  rw [s1, s2, s3]
  ring

theorem and_fifteen (x : Nat) : x &&& 15 = x % 16 := by
  have h := Nat.and_pow_two_sub_one_eq_mod x 4
  norm_num at h
  exact h

theorem and_127 (x : Nat) : x &&& 127 = x % 128 := by
  have h := Nat.and_pow_two_sub_one_eq_mod x 7
  norm_num at h
  exact h

theorem and_mask31 (x : Nat) : x &&& 2147483647 = x % 2147483648 := by
  have h := Nat.and_pow_two_sub_one_eq_mod x 31
  norm_num at h
  exact h

/-! ### The counter encoding: `int_to_bytestring` is the 8-byte big-endian form -/

theorem int_to_bytestring_core_zero : int_to_bytestring_core 0 = [] := by
  unfold int_to_bytestring_core
  rfl

theorem int_to_bytestring_core_ne (i : Nat) (h : i ≠ 0) :
    int_to_bytestring_core i = int_to_bytestring_core (i / 256) ++ [i % 256] := by
  conv_lhs => rw [int_to_bytestring_core]
  simp [h]

theorem toBE_zero (k : Nat) : toBE k 0 = List.replicate k 0 := by
  induction k with
  | zero => rfl
  | succ k ih =>
    show toBE k (0 / 256) ++ [0 % 256] = _
    rw [Nat.zero_div, ih]
    simp [List.replicate_succ']

theorem core_pad_eq_toBE (k : Nat) : ∀ n, n < 2 ^ (8 * k) →
    List.replicate (k - (int_to_bytestring_core n).length) 0 ++ int_to_bytestring_core n =
      toBE k n := by
  induction k with
  | zero =>
    intro n h
    have hn : n = 0 := by simpa using h
    subst hn
    simp [int_to_bytestring_core_zero, toBE]
  | succ k ih =>
    intro n h
    by_cases hn : n = 0
    · subst hn
      rw [int_to_bytestring_core_zero, toBE_zero]
      simp
    · rw [int_to_bytestring_core_ne n hn]
      have hlt : n / 256 < 2 ^ (8 * k) := by
        rw [Nat.div_lt_iff_lt_mul (by omega)]
        calc n < 2 ^ (8 * (k + 1)) := h
          _ = 2 ^ (8 * k) * 256 := by
              rw [show 8 * (k + 1) = 8 * k + 8 by ring, pow_add]
              norm_num
      have hih := ih (n / 256) hlt
      have hlen : (k + 1) - ((int_to_bytestring_core (n / 256)).length + 1) =
          k - (int_to_bytestring_core (n / 256)).length := by omega
      show List.replicate ((k + 1) - (int_to_bytestring_core (n / 256) ++ [n % 256]).length) 0 ++
          (int_to_bytestring_core (n / 256) ++ [n % 256]) = toBE k (n / 256) ++ [n % 256]
      rw [List.length_append, List.length_singleton, hlen, ← List.append_assoc, hih]

theorem int_to_bytestring_eq_toBE (i : Nat) (h : i < 2 ^ 64) :
    int_to_bytestring i = toBE 8 i :=
  core_pad_eq_toBE 8 i (by norm_num; omega)

/-! ### Rendering: at most 6 decimal digits below `10 ^ 6`, `zfill` pads to 6 -/

theorem decDigits_length_le (k : Nat) : ∀ n, n < 10 ^ (k + 1) →
    (decDigits n).length ≤ k + 1 := by
  induction k with
  | zero =>
    intro n h
    have hn : n < 10 := by simpa using h
    unfold decDigits
    simp [hn]
  | succ k ih =>
    intro n h
    by_cases hn : n < 10
    · unfold decDigits
      simp [hn]
    · conv_lhs => rw [decDigits]
      rw [dif_neg hn]
      have hlt : n / 10 < 10 ^ (k + 1) := by
        rw [Nat.div_lt_iff_lt_mul (by omega)]
        calc n < 10 ^ (k + 1 + 1) := h
          _ = 10 ^ (k + 1) * 10 := by rw [pow_succ]
      have := ih (n / 10) hlt
      simp only [List.length_append, List.length_singleton]
      omega

theorem zfill_length (l : List Char) (h : l.length ≤ 6) : (zfill 6 l).length = 6 := by
  show (List.replicate (6 - l.length) '0' ++ l).length = 6
  simp only [List.length_append, List.length_replicate]
  omega

theorem rfc6238Reference_length (b : List Nat) (t : Nat) :
    (rfc6238Reference b t).length = 6 := by
  simp only [rfc6238Reference]
  apply zfill_length
  have h6 := decDigits_length_le 5
      ((bytesToNat (((hmacSha1 b (toBE 8 (t / 30))).drop
          ((hmacSha1 b (toBE 8 (t / 30))).getD 19 0 &&& 0xF)).take 4) &&& 0x7FFFFFFF) % 10 ^ 6)
      (by norm_num [Nat.mod_lt])
  simpa using h6

/-! ### The pyotp pipeline computes the specification's RFC 6238 reference code -/

theorem generate_otp_eq_reference (b : List Nat) (t : Nat) (ht : t / 30 < 2 ^ 64) :
    totp_now b t = rfc6238Reference b t := by
  simp only [totp_now, generate_otp, rfc6238Reference]
  rw [int_to_bytestring_eq_toBE _ ht]
  have hlen : (hmacSha1 b (toBE 8 (t / 30))).length = 20 := hmacSha1_length b _
  have hmem : ∀ x ∈ hmacSha1 b (toBE 8 (t / 30)), x < 256 := hmacSha1_mem_lt b _
  rw [getLastD_eq_getD_19 _ hlen]
  set D := hmacSha1 b (toBE 8 (t / 30)) with hD
  have h19 : D.getD 19 0 < 256 := getD_lt_of_mem_lt D 19 (by omega) hmem
  set o := D.getD 19 0 &&& 0xF with ho
  have ho15 : o ≤ 15 := Nat.and_le_right
  rw [drop_take_four D o (by omega)]
  have hx := getD_lt_of_mem_lt D o (by omega) hmem
  have hy := getD_lt_of_mem_lt D (o + 1) (by omega) hmem
  have hz := getD_lt_of_mem_lt D (o + 2) (by omega) hmem
  have hw := getD_lt_of_mem_lt D (o + 3) (by omega) hmem
  set x := D.getD o 0 with hx0
  set y := D.getD (o + 1) 0 with hy0
  set z := D.getD (o + 2) 0 with hz0
  set w := D.getD (o + 3) 0 with hw0
  have hcode : ((x &&& 0x7F) <<< 24) ||| (y <<< 16) ||| (z <<< 8) ||| w =
      bytesToNat [x, y, z, w] &&& 0x7FFFFFFF := by
    rw [code_or_eq (x &&& 0x7F) y z w hy hz hw]
    simp only [bytesToNat, List.foldl]
    rw [and_127, and_mask31]
    omega
  rw [hcode]

/-! ### ASCII case mapping is idempotent -/

theorem char_toNat_ofNat (n : Nat) (h : n.isValidChar) : (Char.ofNat n).toNat = n := by
  rw [Char.ofNat, dif_pos h]
  rfl

theorem toUpper_idem (c : Char) : c.toUpper.toUpper = c.toUpper := by
  simp only [Char.toUpper]
  by_cases h : c.toNat ≥ 97 ∧ c.toNat ≤ 122
  · rw [if_pos h]
    have hv : (c.toNat - 32).isValidChar := Or.inl (by omega)
    rw [char_toNat_ofNat _ hv, if_neg (by omega)]
  · rw [if_neg h, if_neg h]

theorem toLower_idem (c : Char) : c.toLower.toLower = c.toLower := by
  simp only [Char.toLower]
  by_cases h : c.toNat ≥ 65 ∧ c.toNat ≤ 90
  · rw [if_pos h]
    have hv : (c.toNat + 32).isValidChar := Or.inl (by omega)
    rw [char_toNat_ofNat _ hv, if_neg (by omega)]
  · rw [if_neg h, if_neg h]

theorem pyUpper_idem (s : String) : pyUpper (pyUpper s) = pyUpper s := by
  simp only [pyUpper, List.map_map]
  have hc : Char.toUpper ∘ Char.toUpper = Char.toUpper := funext toUpper_idem
  rw [hc]

theorem pyLower_idem (s : String) : pyLower (pyLower s) = pyLower s := by
  simp only [pyLower, List.map_map]
  have hc : Char.toLower ∘ Char.toLower = Char.toLower := funext toLower_idem
  rw [hc]

/-! ### The language accepted by `is_valid_base32` -/

theorem takeWhile_append_all (p : Char → Bool) (l1 l2 : List Char)
    (h : ∀ a ∈ l1, p a = true) :
    (l1 ++ l2).takeWhile p = l1 ++ l2.takeWhile p ∧
    (l1 ++ l2).dropWhile p = l2.dropWhile p := by
  induction l1 with
  | nil => simp
  | cons a l1 ih =>
    have ha : p a = true := h a (by simp)
    have ih2 := ih (fun x hx => h x (by simp [hx]))
    simp [List.takeWhile_cons, List.dropWhile_cons, ha, ih2.1, ih2.2]

theorem coreMatch_iff (l : List Char) :
    coreMatch l = true ↔
      ∃ body pad : List Char, l = body ++ pad ∧ body ≠ [] ∧
        (∀ c ∈ body, isB32Char c = true) ∧ (∀ c ∈ pad, c = '=') := by
  constructor
  · intro h
    simp only [coreMatch, Bool.and_eq_true, Bool.not_eq_true', List.isEmpty_eq_false,
      List.all_eq_true] at h
    refine ⟨l.takeWhile isB32Char, l.dropWhile isB32Char,
      (List.takeWhile_append_dropWhile isB32Char l).symm, ?_, ?_, ?_⟩
    · exact h.1
    · intro c hc
      exact List.mem_takeWhile_imp hc
    · intro c hc
      have := h.2 c hc
      simpa [beq_iff_eq] using this
  · rintro ⟨body, pad, rfl, hne, hb, hp⟩
    have hpadtake : pad.takeWhile isB32Char = [] := by
      cases pad with
      | nil => rfl
      | cons c pad =>
        have hc : c = '=' := hp c (by simp)
        subst hc
        simp [List.takeWhile_cons, show isB32Char '=' = false by decide]
    have hpaddrop : pad.dropWhile isB32Char = pad := by
      cases pad with
      | nil => rfl
      | cons c pad =>
        have hc : c = '=' := hp c (by simp)
        subst hc
        simp [List.dropWhile_cons, show isB32Char '=' = false by decide]
    have hsplit := takeWhile_append_all isB32Char body pad hb
    simp only [coreMatch, hsplit.1, hsplit.2, hpadtake, hpaddrop, Bool.and_eq_true,
      Bool.not_eq_true', List.isEmpty_eq_false, List.all_eq_true]
    constructor
    · simpa using hne
    · intro c hc
      simp [beq_iff_eq, hp c hc]

theorem is_valid_base32_iff (s : String) : is_valid_base32 s = true ↔ regexBase32 s := by
  constructor
  · intro h
    simp only [is_valid_base32, Bool.or_eq_true, Bool.and_eq_true, beq_iff_eq] at h
    rcases h with h | ⟨hlast, hcore⟩
    · obtain ⟨body, pad, heq, hne, hb, hp⟩ := (coreMatch_iff _).mp h
      exact ⟨body, pad, [], by simp [heq], hne, hb, hp, Or.inl rfl⟩
    · have hnil : s.data ≠ [] := by
        intro hd
        rw [hd] at hlast
        simp at hlast
      obtain ⟨body, pad, heq, hne, hb, hp⟩ := (coreMatch_iff _).mp hcore
      refine ⟨body, pad, ['\n'], ?_, hne, hb, hp, Or.inr rfl⟩
      have hdecomp : s.data = s.data.dropLast ++ [s.data.getLast hnil] :=
        (List.dropLast_append_getLast hnil).symm
      have hlastc : s.data.getLast hnil = '\n' := by
        rw [List.getLastD_eq_getLast?, List.getLast?_eq_getLast _ hnil] at hlast
        simpa using hlast
      rw [hdecomp, hlastc, heq, List.append_assoc]
  · rintro ⟨body, pad, nl, heq, hne, hb, hp, hnl⟩
    have hcore : coreMatch (body ++ pad) = true :=
      (coreMatch_iff _).mpr ⟨body, pad, rfl, hne, hb, hp⟩
    rcases hnl with rfl | rfl
    · have heq2 : s.data = body ++ pad := by simpa using heq
      simp only [is_valid_base32, Bool.or_eq_true]
      exact Or.inl (by rw [heq2]; exact hcore)
    · have heq2 : s.data = (body ++ pad) ++ ['\n'] := by
        rw [heq, List.append_assoc]
      simp only [is_valid_base32, Bool.or_eq_true, Bool.and_eq_true, beq_iff_eq]
      refine Or.inr ⟨?_, ?_⟩
      · rw [heq2]
        simp [List.getLastD_concat]
      · rw [heq2, List.dropLast_concat]
        exact hcore

/-! ### Store helper lemmas -/

theorem storeLookup_eq_none_of_not_has (st : Store) (n : String)
    (h : storeHasName st n = false) : storeLookup st n = none := by
  simp only [storeLookup]
  rw [List.find?_eq_none.mpr]
  · rfl
  · intro r hr hp
    have ht : storeHasName st n = true := List.any_eq_true.mpr ⟨r, hr, hp⟩
    rw [h] at ht
    exact Bool.noConfusion ht

theorem mem_map_fst_of_has (st : Store) (n : String)
    (h : storeHasName st n = true) : n ∈ st.map Prod.fst := by
  obtain ⟨r, hr, hp⟩ := List.any_eq_true.mp h
  have : r.1 = n := by simpa [beq_iff_eq] using hp
  exact this ▸ List.mem_map_of_mem Prod.fst hr

theorem countP_eq_count_map (st : Store) (n : String) :
    st.countP (fun r => r.1 == n) = (st.map Prod.fst).count n := by
  rw [List.count, List.countP_map]
  rfl

/-! ### Claim theorems -/

/-- C1: for every stored secret whose Base32 decode succeeds (with the counter
below `2 ^ 64`, so that it fits the 8-byte encoding both sides use), the
`getotp` command replies with exactly the RFC 6238 reference code of the
decoded secret bytes at `floor(t / 30)`, and that code has exactly 6 digits
with leading zeros preserved. -/
theorem getotp_matches_rfc6238 (st : Store) (name0 : String) (rest : List String)
    (key : String) (b : List Nat) (t : Nat)
    (hlook : storeLookup st (pyLower name0) = some key)
    (hdec : byte_secret key = .ok b)
    (ht : t / 30 < 2 ^ 64) :
    getotp st (name0 :: rest) t =
      .ok ("Your real-time OTP code for " ++ pyLower name0 ++ " is: " ++
        rfc6238Reference b t) ∧
    (rfc6238Reference b t).length = 6 := by
  refine ⟨?_, rfc6238Reference_length b t⟩
  simp only [getotp, hlook, hdec]
  rw [generate_otp_eq_reference b t ht]

/-- Witness for C1 at the specification's own end-to-end vector: secret
`JBSWY3DPEHPK3PXP`, unix time 1700000000. -/
theorem getotp_matches_rfc6238_witness :
    getotp [("svc", "JBSWY3DPEHPK3PXP")] ["svc"] 1700000000 =
      .ok ("Your real-time OTP code for " ++ pyLower "svc" ++ " is: " ++
        rfc6238Reference [72, 101, 108, 108, 111, 33, 222, 173, 190, 239] 1700000000) ∧
    (rfc6238Reference [72, 101, 108, 108, 111, 33, 222, 173, 190, 239] 1700000000).length = 6 :=
  getotp_matches_rfc6238 [("svc", "JBSWY3DPEHPK3PXP")] "svc" []
    "JBSWY3DPEHPK3PXP" [72, 101, 108, 108, 111, 33, 222, 173, 190, 239] 1700000000
    rfl rfl (by decide)

/-- C2 counterexample: the claim's predicate (every character in `[A-Z2-7]`
apart from a trailing `=` run, possibly empty) disagrees with the code at the
empty string, which the regex rejects because `[A-Z2-7]+` needs one character,
and at `"AB\n"`, which Python's `$` accepts despite the newline. -/
theorem is_valid_base32_claim_counterexample :
    (¬ (is_valid_base32 "" = true ↔ claimBase32 "")) ∧
    (¬ (is_valid_base32 "AB\n" = true ↔ claimBase32 "AB\n")) := by
  constructor
  · intro hiff
    have hclaim : claimBase32 "" := ⟨[], [], rfl, by simp, by simp⟩
    have := hiff.mpr hclaim
    exact Bool.noConfusion this
  · intro hiff
    have hvalid : is_valid_base32 "AB\n" = true := by decide
    obtain ⟨body, pad, heq, hb, hp⟩ := hiff.mp hvalid
    have hmem : '\n' ∈ String.data "AB\n" := by decide
    rw [heq] at hmem
    rcases List.mem_append.mp hmem with h | h
    · have := hb '\n' h
      exact absurd this (by decide)
    · have := hp '\n' h
      exact absurd this (by decide)

/-- C2 (amended): `is_valid_base32` accepts exactly the strings made of at
least one character of `[A-Z2-7]`, then a possibly-empty trailing run of `=`,
optionally followed by one final newline (Python's `$` matches before a string-
final newline); in particular the empty string and `=`-only strings are
rejected. -/
theorem is_valid_base32_characterization (s : String) :
    is_valid_base32 s = true ↔ regexBase32 s :=
  is_valid_base32_iff s

/-- C4 counterexample: the secret `"A"` passes `is_valid_base32` (so `addcode`
stores it) but its Base32 decode fails, and `getotp` then propagates the
decode exception instead of replying with any text. -/
theorem getotp_corrupt_secret_counterexample :
    storeLookup [("svc", "A")] "svc" = some "A" ∧
    is_valid_base32 "A" = true ∧
    byte_secret "A" = .error () ∧
    getotp [("svc", "A")] ["svc"] 0 = .error () :=
  ⟨rfl, rfl, rfl, rfl⟩

/-- C4 (amended): when a stored secret fails Base32 decoding, `getotp` does not
convert the failure into a user-facing text reply: the handler has no
try/except around `pyotp.TOTP(...).now()`, so the decode exception escapes. -/
theorem getotp_decode_failure_raises (st : Store) (name0 : String) (rest : List String)
    (key : String) (t : Nat)
    (hlook : storeLookup st (pyLower name0) = some key)
    (hdec : byte_secret key = .error ()) :
    getotp st (name0 :: rest) t = .error () := by
  simp only [getotp, hlook, hdec]

/-- Witness for the amended C4 at the reachable store holding `("svc", "A")`. -/
theorem getotp_decode_failure_raises_witness :
    getotp [("othersvc", "AA"), ("svc", "A")] ["SVC"] 1700000000 = .error () :=
  getotp_decode_failure_raises [("othersvc", "AA"), ("svc", "A")] "SVC" [] "A"
    1700000000 rfl rfl

/-- C5: the generated code is a pure function of the secret bytes and the
30-second window `floor(t / 30)` — two timestamps in the same window give the
same code.  (The embedding is functional, so there is no hidden state: the
clock is the explicit argument `t`.) -/
theorem totp_now_same_window (b : List Nat) (t1 t2 : Nat) (h : t1 / 30 = t2 / 30) :
    totp_now b t1 = totp_now b t2 := by
  simp only [totp_now, h]

/-- Witness for C5: timestamps 31 and 59 share window 1. -/
theorem totp_now_same_window_witness :
    31 / 30 = 59 / 30 ∧ totp_now [1, 2, 3] 31 = totp_now [1, 2, 3] 59 :=
  ⟨by decide, totp_now_same_window [1, 2, 3] 31 59 (by decide)⟩

/-- C3: adding a name whose normalized (lowercased) form is already stored fails
with the already-exists reply and leaves the table unchanged; by the primary-key
uniqueness (`Nodup` on the names) it still holds exactly one record for that
name, and, the table being unchanged, its secret key is unchanged too. -/
theorem addcode_duplicate (st : Store) (name0 key0 : String) (rest : List String)
    (hnodup : (st.map Prod.fst).Nodup)
    (hmem : storeHasName st (pyLower name0) = true)
    (hvalid : is_valid_base32 (pyUpper key0) = true) :
    addcode st (name0 :: key0 :: rest) =
      (st, "Service '" ++ pyLower name0 ++
        "' already exists. Use /deletecode to remove it first.") ∧
    st.countP (fun r => r.1 == pyLower name0) = 1 ∧
    storeLookup (addcode st (name0 :: key0 :: rest)).1 (pyLower name0) =
      storeLookup st (pyLower name0) := by
  have hstep : addcode st (name0 :: key0 :: rest) =
      (st, "Service '" ++ pyLower name0 ++
        "' already exists. Use /deletecode to remove it first.") := by
    simp only [addcode, hvalid, hmem]
    rfl
  refine ⟨hstep, ?_, by rw [hstep]⟩
  rw [countP_eq_count_map]
  exact List.count_eq_one_of_mem hnodup (mem_map_fst_of_has st _ hmem)

/-- Witness for C3 on the one-record store `[("svc", "ABC")]`. -/
theorem addcode_duplicate_witness :
    addcode [("svc", "ABC")] ["SVC", "def"] =
      ([("svc", "ABC")], "Service '" ++ pyLower "SVC" ++
        "' already exists. Use /deletecode to remove it first.") ∧
    List.countP (fun r => r.1 == pyLower "SVC") [("svc", "ABC")] = 1 ∧
    storeLookup (addcode [("svc", "ABC")] ["SVC", "def"]).1 (pyLower "SVC") =
      storeLookup [("svc", "ABC")] (pyLower "SVC") :=
  addcode_duplicate [("svc", "ABC")] "SVC" "def" [] (by simp) (by decide) (by decide)

/-- C7: `addcode` with a secret that fails validation replies with the
invalid-format message and returns the store unchanged; in particular a name
that was absent is still absent, so a subsequent lookup finds nothing. -/
theorem addcode_invalid_key (st : Store) (name0 key0 : String) (rest : List String)
    (hinv : is_valid_base32 (pyUpper key0) = false) :
    addcode st (name0 :: key0 :: rest) =
      (st, "Invalid secret_key. It must be a valid Base32 string (A-Z, 2-7, and = only).") ∧
    (storeHasName st (pyLower name0) = false →
      storeLookup (addcode st (name0 :: key0 :: rest)).1 (pyLower name0) = none) := by
  have hstep : addcode st (name0 :: key0 :: rest) =
      (st, "Invalid secret_key. It must be a valid Base32 string (A-Z, 2-7, and = only).") := by
    simp only [addcode, hinv]
    rfl
  refine ⟨hstep, fun habs => ?_⟩
  rw [hstep]
  exact storeLookup_eq_none_of_not_has st _ habs

/-- Witness for C7 with the specification's own input `svc invalid-key!`. -/
theorem addcode_invalid_key_witness :
    addcode [("other", "AA")] ["svc", "invalid-key!"] =
      ([("other", "AA")],
        "Invalid secret_key. It must be a valid Base32 string (A-Z, 2-7, and = only).") ∧
    storeLookup (addcode [("other", "AA")] ["svc", "invalid-key!"]).1 (pyLower "svc") = none := by
  have h := addcode_invalid_key [("other", "AA")] "svc" "invalid-key!" [] (by decide)
  exact ⟨h.1, h.2 (by decide)⟩

/-- C8: deleting a name whose normalized form is absent replies not-found and
leaves the store unchanged; deleting a present name replies success and a
subsequent lookup of that name finds nothing. -/
theorem deletecode_spec (st : Store) (name0 : String) (rest : List String) :
    (storeHasName st (pyLower name0) = false →
      deletecode st (name0 :: rest) =
        (st, "Service '" ++ pyLower name0 ++
          "' not found. Use /listcodes to see available services.")) ∧
    (storeHasName st (pyLower name0) = true →
      (deletecode st (name0 :: rest)).2 =
        "OTP code for '" ++ pyLower name0 ++ "' deleted successfully." ∧
      storeLookup (deletecode st (name0 :: rest)).1 (pyLower name0) = none) := by
  constructor
  · intro habs
    have hfix : st.filter (fun r => r.1 != pyLower name0) = st := by
      rw [List.filter_eq_self]
      intro r hr
      have : (r.1 == pyLower name0) = false := by
        by_contra hc
        have hp : (r.1 == pyLower name0) = true := by
          cases hb : (r.1 == pyLower name0) with
          | true => rfl
          | false => exact absurd hb hc
        have ht : storeHasName st (pyLower name0) = true :=
          List.any_eq_true.mpr ⟨r, hr, hp⟩
        rw [habs] at ht
        exact Bool.noConfusion ht
      simp [bne, this]
    simp [deletecode, hfix]
  · intro hpres
    obtain ⟨r, hr, hp⟩ := List.any_eq_true.mp hpres
    have hlt : (st.filter (fun r => r.1 != pyLower name0)).length < st.length := by
      rw [List.length_filter_lt_length_iff_exists]
      exact ⟨r, hr, by simp_all [bne]⟩
    have hlookup : storeLookup (st.filter (fun r => r.1 != pyLower name0))
        (pyLower name0) = none := by
      simp only [storeLookup]
      rw [List.find?_eq_none.mpr]
      · rfl
      · intro x hx hp2
        have h2 := (List.mem_filter.mp hx).2
        simp only [bne, hp2] at h2
        exact Bool.noConfusion h2
    have hres : deletecode st (name0 :: rest) =
        (st.filter (fun r => r.1 != pyLower name0),
         "OTP code for '" ++ pyLower name0 ++ "' deleted successfully.") := by
      simp only [deletecode]
      rw [if_neg (by omega : ¬ (st.filter
        (fun r => r.1 != pyLower name0)).length = st.length)]
    rw [hres]
    exact ⟨rfl, hlookup⟩

/-- Witness for C8: both branches on small concrete stores. -/
theorem deletecode_spec_witness :
    deletecode [("a", "AA")] ["b"] =
      ([("a", "AA")],
        "Service '" ++ pyLower "b" ++ "' not found. Use /listcodes to see available services.") ∧
    (deletecode [("a", "AA")] ["A"]).2 =
      "OTP code for '" ++ pyLower "A" ++ "' deleted successfully." ∧
    storeLookup (deletecode [("a", "AA")] ["A"]).1 (pyLower "A") = none :=
  ⟨(deletecode_spec [("a", "AA")] "b" []).1 (by decide),
   (deletecode_spec [("a", "AA")] "A" []).2 (by decide)⟩

/-- C9: on a store without the normalized name, `addcode` with a valid key
succeeds, and a lookup under any casing with the same lowercase form returns
exactly the uppercased key that was stored. -/
theorem addcode_then_get (st : Store) (name0 name1 key0 : String) (rest : List String)
    (hvalid : is_valid_base32 (pyUpper key0) = true)
    (habs : storeHasName st (pyLower name0) = false)
    (hcase : pyLower name1 = pyLower name0) :
    (addcode st (name0 :: key0 :: rest)).2 =
      "OTP code for '" ++ pyLower name0 ++ "' added successfully." ∧
    storeLookup (addcode st (name0 :: key0 :: rest)).1 (pyLower name1) =
      some (pyUpper key0) := by
  have hfalse : storeHasName st (pyLower name0) ≠ true := by
    rw [habs]
    exact Bool.noConfusion
  have hstep : addcode st (name0 :: key0 :: rest) =
      (st ++ [(pyLower name0, pyUpper key0)],
        "OTP code for '" ++ pyLower name0 ++ "' added successfully.") := by
    simp only [addcode, hvalid, if_neg hfalse]
    rfl
  rw [hstep, hcase]
  refine ⟨rfl, ?_⟩
  simp only [storeLookup, List.find?_append]
  have hnone : st.find? (fun r => r.1 == pyLower name0) = none := by
    have := storeLookup_eq_none_of_not_has st _ habs
    simp only [storeLookup] at this
    exact Option.map_eq_none'.mp this
  rw [hnone]
  simp

/-- Witness for C9: add `GitHub`, look up `GITHUB`. -/
theorem addcode_then_get_witness :
    (addcode [] ["GitHub", "jbswy3dpehpk3pxp"]).2 =
      "OTP code for '" ++ pyLower "GitHub" ++ "' added successfully." ∧
    storeLookup (addcode [] ["GitHub", "jbswy3dpehpk3pxp"]).1 (pyLower "GITHUB") =
      some (pyUpper "jbswy3dpehpk3pxp") :=
  addcode_then_get [] "GitHub" "GITHUB" "jbswy3dpehpk3pxp" [] (by decide) (by decide)
    (by decide)

/-! ### Reachability invariants -/

theorem mem_addcode_fst (st : Store) (args : List String) (r : String × String)
    (hr : r ∈ (addcode st args).1) :
    r ∈ st ∨ ∃ name0 key0 rest, args = name0 :: key0 :: rest ∧
      r = (pyLower name0, pyUpper key0) ∧ is_valid_base32 (pyUpper key0) = true := by
  rcases args with _ | ⟨n0, args⟩
  · exact Or.inl (by simpa [addcode] using hr)
  rcases args with _ | ⟨k0, rest⟩
  · exact Or.inl (by simpa [addcode] using hr)
  by_cases h1 : is_valid_base32 (pyUpper k0) = true
  · by_cases h2 : storeHasName st (pyLower n0) = true
    · simp only [addcode, h1, h2, Bool.not_true, Bool.false_eq_true, if_false, if_true] at hr
      exact Or.inl hr
    · simp only [addcode, h1, Bool.not_true, Bool.false_eq_true, if_false, if_neg h2] at hr
      rcases List.mem_append.mp hr with h | h
      · exact Or.inl h
      · right
        refine ⟨n0, k0, rest, rfl, ?_, h1⟩
        simpa using h
  · have h1f : is_valid_base32 (pyUpper k0) = false := by
      cases hb : is_valid_base32 (pyUpper k0) with
      | true => exact absurd hb h1
      | false => rfl
    simp only [addcode, h1f, Bool.not_false, if_true] at hr
    exact Or.inl hr

theorem mem_deletecode_fst (st : Store) (args : List String) (r : String × String)
    (hr : r ∈ (deletecode st args).1) : r ∈ st := by
  rcases args with _ | ⟨a, rest⟩
  · simpa [deletecode] using hr
  · simp only [deletecode] at hr
    split at hr <;> exact (List.mem_filter.mp hr).1

/-- C6: in every store state reachable through the command operations, every
persisted secret key passes `is_valid_base32` and is uppercase (equal to its
own uppercasing): `addcode` is the only insertion path, it uppercases the key
and persists it only after validation succeeds. -/
theorem reachable_keys_valid (st : Store) (h : Reachable st) :
    ∀ r ∈ st, is_valid_base32 r.2 = true ∧ pyUpper r.2 = r.2 := by
  induction h with
  | init =>
    intro r hr
    exact absurd hr (List.not_mem_nil r)
  | add st0 args hst ih =>
    intro r hr
    rcases mem_addcode_fst st0 args r hr with h | ⟨n0, k0, rest, _, rfl, hvalid⟩
    · exact ih r h
    · exact ⟨hvalid, pyUpper_idem k0⟩
  | del st0 args hst ih =>
    intro r hr
    exact ih r (mem_deletecode_fst st0 args r hr)

/-- Witness for C6 on the reachable store built by `addcode [] ["svc", "abc"]`. -/
theorem reachable_keys_valid_witness :
    is_valid_base32 "ABC" = true ∧ pyUpper "ABC" = "ABC" :=
  reachable_keys_valid (addcode [] ["svc", "abc"]).1
    (Reachable.add [] ["svc", "abc"] Reachable.init) ("svc", "ABC") (by decide)

/-- C10: in every store state reachable through the command operations, every
stored name equals its own lowercasing, because every inserting operation
lowercases the name first; names differing only in ASCII case therefore map to
the same stored record. -/
theorem reachable_names_lower (st : Store) (h : Reachable st) :
    ∀ r ∈ st, pyLower r.1 = r.1 := by
  induction h with
  | init =>
    intro r hr
    exact absurd hr (List.not_mem_nil r)
  | add st0 args hst ih =>
    intro r hr
    rcases mem_addcode_fst st0 args r hr with h | ⟨n0, k0, rest, _, rfl, hvalid⟩
    · exact ih r h
    · exact pyLower_idem n0
  | del st0 args hst ih =>
    intro r hr
    exact ih r (mem_deletecode_fst st0 args r hr)

/-- Witness for C10 on the reachable store built by `addcode [] ["GitHub", "AA"]`. -/
theorem reachable_names_lower_witness :
    pyLower "github" = "github" :=
  reachable_names_lower (addcode [] ["GitHub", "AA"]).1
    (Reachable.add [] ["GitHub", "AA"] Reachable.init) ("github", "AA") (by decide)

end OtpBot
